import Mathlib

set_option linter.dupNamespace false
set_option linter.unusedVariables false

/-!
Verification of the celery AMQP client (celery.go): task wire encoding and
decoding, the publish call, and the consume loop, embedded shallowly.

Conventions of the embedding:
* `time.Time` values are modelled by `GoTime`, a UTC civil datetime with
  nanosecond precision (the instants this client handles are all UTC, so
  `Time.UTC()` is the identity on this representation).
* Go's `time.Format`/`time.Parse` with the fixed layout
  `"2006-01-02T15:04:05.999999"` are implemented over character lists:
  the `9`-run fraction prints at most six digits with trailing zeros
  removed (and drops the decimal point when the fraction is zero), and on
  parsing accepts an optional fraction of up to nine digits.
* JSON bytes are modelled at the value level by `JsonData`: either a
  well-formed JSON document (`GoValue`) or malformed bytes carried
  verbatim.  `map[string]interface{}` is modelled by its association
  list; `interface{}` values that `encoding/json` cannot marshal are the
  `unmarshalable` constructor.
* The AMQP channel is modelled as a stub recording the calls the code
  makes, with the broker's answers supplied as stub fields; the delivery
  stream is a finite list, its end modelling the broker closing it.
-/

namespace Celery

/-! ## JSON values and Go errors -/

/-- A Go `interface{}` value as seen by `encoding/json`: the JSON value
kinds, plus values (functions, channels, ...) that `json.Marshal` rejects. -/
inductive GoValue where
  | null : GoValue
  | bool (b : Bool) : GoValue
  | num (n : Int) : GoValue
  | str (s : String) : GoValue
  | arr (elems : List GoValue) : GoValue
  | obj (entries : List (String × GoValue)) : GoValue
  | unmarshalable (desc : String) : GoValue

/-- The error values this client can observe. -/
inductive GoError where
  /-- Error `*json.SyntaxError`: the input bytes are not valid JSON. -/
  | jsonMalformed (raw : String) : GoError
  /-- Error `*json.UnsupportedTypeError` and friends on marshal. -/
  | jsonUnsupportedValue (field : String) : GoError
  /-- Error `*json.UnmarshalTypeError`: a JSON value of the wrong kind for the field. -/
  | jsonTypeMismatch (field : String) : GoError
  /-- Error `*time.ParseError` from `time.Parse layout value`. -/
  | timeParseFailed (layout : String) (value : String) : GoError
  /-- An error returned by the AMQP channel (bind / consume / publish). -/
  | amqpFailure (msg : String) : GoError
deriving DecidableEq

/-- Bytes handed to `UnmarshalJSON`: either a well-formed JSON document or
malformed bytes (kept verbatim so the syntax error can cite them). -/
inductive JsonData where
  | malformed (raw : String) : JsonData
  | valid (j : GoValue) : JsonData

mutual

/-- Whether `json.Marshal` accepts the value (no function/channel etc. inside). -/
def GoValue.marshalable : GoValue → Bool
  | .null => true
  | .bool _ => true
  | .num _ => true
  | .str _ => true
  | .arr l => marshalableList l
  | .obj l => marshalableEntries l
  | .unmarshalable _ => false

/-- All values of a JSON array are marshalable. -/
def marshalableList : List GoValue → Bool
  | [] => true
  | v :: vs => v.marshalable && marshalableList vs

/-- All values of a JSON object are marshalable. -/
def marshalableEntries : List (String × GoValue) → Bool
  | [] => true
  | (_, v) :: vs => v.marshalable && marshalableEntries vs

end

/-! ## Go time: civil UTC datetimes, the fixed layout, format and parse -/

/-- Model of `time.Time` restricted to what the client uses: a UTC civil datetime
with nanosecond precision. -/
structure GoTime where
  year : Nat
  month : Nat
  day : Nat
  hour : Nat
  minute : Nat
  second : Nat
  nanosecond : Nat
deriving DecidableEq

/-- Go's zero `time.Time`: January 1, year 1, 00:00:00 UTC. -/
def GoTime.zero : GoTime := ⟨1, 1, 1, 0, 0, 0, 0⟩

/-- Model of `Time.IsZero`. -/
def GoTime.isZero (t : GoTime) : Bool :=
  t == GoTime.zero

/-- The constant `timeFormat = "2006-01-02T15:04:05.999999"` (celery.go line 44). -/
def timeFormat : String := "2006-01-02T15:04:05.999999"

def isLeapYear (y : Nat) : Bool :=
  y % 4 == 0 && (y % 100 != 0 || y % 400 == 0)

def daysInMonth (y m : Nat) : Nat :=
  match m with
  | 1 => 31
  | 2 => if isLeapYear y then 29 else 28
  | 3 => 31
  | 4 => 30
  | 5 => 31
  | 6 => 30
  | 7 => 31
  | 8 => 31
  | 9 => 30
  | 10 => 31
  | 11 => 30
  | 12 => 31
  | _ => 0

/-- The range checks `time.Parse` performs on the parsed components. -/
def parseRangeOk (y mo d h mi s : Nat) : Bool :=
  1 ≤ mo && mo ≤ 12 && 1 ≤ d && d ≤ daysInMonth y mo &&
  h < 24 && mi < 60 && s < 60

/-- A civil datetime `time.Time` can actually hold (its representation is
normalized), restricted to four-digit years so the fixed-width layout
round-trips. -/
def GoTime.valid (t : GoTime) : Bool :=
  1 ≤ t.year && t.year ≤ 9999 &&
  parseRangeOk t.year t.month t.day t.hour t.minute t.second &&
  t.nanosecond < 1000000000

def digitChar (d : Nat) : Char := Char.ofNat (48 + d)

def digitVal (c : Char) : Nat := c.toNat - 48

def pad2c (n : Nat) : List Char :=
  [digitChar (n / 10 % 10), digitChar (n % 10)]

def pad4c (n : Nat) : List Char :=
  [digitChar (n / 1000 % 10), digitChar (n / 100 % 10),
   digitChar (n / 10 % 10), digitChar (n % 10)]

def pad6c (n : Nat) : List Char :=
  [digitChar (n / 100000 % 10), digitChar (n / 10000 % 10),
   digitChar (n / 1000 % 10), digitChar (n / 100 % 10),
   digitChar (n / 10 % 10), digitChar (n % 10)]

/-- Remove trailing `'0'` characters. -/
def dropTrailingZeros (l : List Char) : List Char :=
  (l.reverse.dropWhile (fun c => c == '0')).reverse

/-- The fractional part the `.999999` layout chunk prints for a
nanosecond count: six truncated digits with trailing zeros removed, the
decimal point dropped when nothing remains. -/
def fracChars (ns : Nat) : List Char :=
  if (dropTrailingZeros (pad6c (ns / 1000))).isEmpty then []
  else '.' :: dropTrailingZeros (pad6c (ns / 1000))

/-- Model of `Time.Format` with the fixed layout, as a character list. -/
def goFormatChars (t : GoTime) : List Char :=
  pad4c t.year ++ ('-' :: (pad2c t.month ++ ('-' :: (pad2c t.day ++
  ('T' :: (pad2c t.hour ++ (':' :: (pad2c t.minute ++ (':' :: (pad2c t.second ++
  fracChars t.nanosecond))))))))))

/-- Model of `Time.UTC().Format(timeFormat)` (the instants here are UTC, so the
location conversion is the identity). -/
def goFormatTime (t : GoTime) : String := ⟨goFormatChars t⟩

def readDigit : List Char → Option (Nat × List Char)
  | [] => none
  | c :: rest => if c.isDigit then some (digitVal c, rest) else none

def read2 (l : List Char) : Option (Nat × List Char) :=
  match readDigit l with
  | none => none
  | some (a, l1) =>
    match readDigit l1 with
    | none => none
    | some (b, l2) => some (10 * a + b, l2)

def read4 (l : List Char) : Option (Nat × List Char) :=
  match read2 l with
  | none => none
  | some (a, l1) =>
    match read2 l1 with
    | none => none
    | some (b, l2) => some (100 * a + b, l2)

def expectChar (c : Char) : List Char → Option (List Char)
  | [] => none
  | d :: rest => if d == c then some rest else none

def digitsVal (l : List Char) : Nat :=
  l.foldl (fun a c => 10 * a + digitVal c) 0

/-- The optional fraction of a `9`-run layout chunk: a decimal point (or
comma) followed by at least one digit consumes all following digits (at
most nine); otherwise nothing is consumed and the fraction is zero. -/
def readFrac (l : List Char) : Option (Nat × List Char) :=
  match l with
  | [] => some (0, [])
  | c :: rest =>
    if (c == '.' || c == ',') && (match rest with | d :: _ => d.isDigit | [] => false) then
      let digs := rest.takeWhile Char.isDigit
      let rest2 := rest.dropWhile Char.isDigit
      if digs.length ≤ 9 then
        some (digitsVal digs * 10 ^ (9 - digs.length), rest2)
      else none
    else some (0, c :: rest)

/-- Model of `time.Parse` with the fixed layout, on the character list. -/
def parseCore (l : List Char) : Option GoTime :=
  (read4 l).bind fun yl =>
  (expectChar '-' yl.2).bind fun l1 =>
  (read2 l1).bind fun mol =>
  (expectChar '-' mol.2).bind fun l2 =>
  (read2 l2).bind fun dl =>
  (expectChar 'T' dl.2).bind fun l3 =>
  (read2 l3).bind fun hl =>
  (expectChar ':' hl.2).bind fun l4 =>
  (read2 l4).bind fun mil =>
  (expectChar ':' mil.2).bind fun l5 =>
  (read2 l5).bind fun sl =>
  (readFrac sl.2).bind fun nsl =>
  if nsl.2.isEmpty then
    if parseRangeOk yl.1 mol.1 dl.1 hl.1 mil.1 sl.1 then
      some ⟨yl.1, mol.1, dl.1, hl.1, mil.1, sl.1, nsl.1⟩
    else none
  else none

/-- Model of `time.Parse(timeFormat, s)`: the parsed UTC time, or a
`*time.ParseError` naming the layout and the value. -/
def goParseTime (s : String) : Except GoError GoTime :=
  match parseCore s.toList with
  | some t => .ok t
  | none => .error (.timeParseFailed timeFormat s)

/-! ## The task model (celery.go lines 24-44) -/

/-- The in-memory task (struct `Task`). -/
structure Task where
  Task : String
  Id : String
  Args : List String
  KWArgs : List (String × GoValue)
  Retries : Int
  ETA : GoTime
  Expires : GoTime

/-- Go's `&Task{}`: the zero task a consumer decodes into. -/
def Task.zeroTask : Celery.Task := ⟨"", "", [], [], 0, GoTime.zero, GoTime.zero⟩

/-- The wire-shaped struct `FormattedTask` with its json tags
(`task`, `id`, `args,omitempty`, `kwargs,omitempty`, `retries,omitempty`,
`eta,omitempty`, `expires,omitempty`). -/
structure FormattedTask where
  Task : String
  Id : String
  Args : List String
  KWArgs : List (String × GoValue)
  Retries : Int
  ETA : String
  Expires : String

/-- Go's `FormattedTask{}`, the zero value `json.Unmarshal` starts from. -/
def FormattedTask.zeroFT : FormattedTask := ⟨"", "", [], [], 0, "", ""⟩

/-! ## `json.Marshal` of a `FormattedTask` -/

/-- The entries of the JSON object `json.Marshal` emits for a
`FormattedTask`: fields in struct order, `omitempty` fields dropped when
empty slice/map, zero int or empty string. -/
def wireEntries (f : FormattedTask) : List (String × GoValue) :=
  [("task", .str f.Task), ("id", .str f.Id)]
  ++ (if f.Args.isEmpty then [] else [("args", .arr (f.Args.map .str))])
  ++ (if f.KWArgs.isEmpty then [] else [("kwargs", .obj f.KWArgs)])
  ++ (if f.Retries == 0 then [] else [("retries", .num f.Retries)])
  ++ (if f.ETA == "" then [] else [("eta", .str f.ETA)])
  ++ (if f.Expires == "" then [] else [("expires", .str f.Expires)])

/-- Model of `json.Marshal` on a `FormattedTask`: the wire object, or a
failure when a kwargs value cannot be marshaled. -/
def marshalFormatted (f : FormattedTask) : Except GoError JsonData :=
  if marshalableEntries f.KWArgs then
    .ok (.valid (.obj (wireEntries f)))
  else .error (.jsonUnsupportedValue "kwargs")

/-- Model of `Task.MarshalJSON` (celery.go lines 65-84): build the `FormattedTask`,
set the time strings only for non-zero times, and marshal it. -/
def Task.MarshalJSON (t : Celery.Task) : Except GoError JsonData :=
  marshalFormatted
    { Task := t.Task
      Id := t.Id
      Args := t.Args
      KWArgs := t.KWArgs
      Retries := t.Retries
      ETA := if !t.ETA.isZero then goFormatTime t.ETA else ""
      Expires := if !t.Expires.isZero then goFormatTime t.Expires else "" }

/-! ## `json.Unmarshal` into a `FormattedTask`

`encoding/json` walks the input object's entries in order; an entry whose
key names no struct field is ignored, a JSON `null` leaves the field
untouched, a value of the wrong kind records an `UnmarshalTypeError` (the
first such error is the one reported) and decoding continues. -/

/-- Decode a JSON array into `[]string`: per element, a string is taken,
`null` leaves the zero string, anything else keeps the zero string and
records the first type error. -/
def decodeStringList (l : List GoValue) : List String × Option GoError :=
  match l with
  | [] => ([], none)
  | v :: vs =>
    let (rest, e) := decodeStringList vs
    match v with
    | .str s => (s :: rest, e)
    | .null => ("" :: rest, e)
    | _ => ("" :: rest, some (.jsonTypeMismatch "args") <|> e)

/-- Decode a JSON value into a string field: a string replaces the
current value, `null` is a no-op, anything else is a type error. -/
def storeString (field : String) (cur : String) (v : GoValue) :
    String × Option GoError :=
  match v with
  | .str s => (s, none)
  | .null => (cur, none)
  | _ => (cur, some (.jsonTypeMismatch field))

/-- Decode a JSON value into a `[]string` field. -/
def storeStringList (field : String) (cur : List String) (v : GoValue) :
    List String × Option GoError :=
  match v with
  | .arr l => decodeStringList l
  | .null => (cur, none)
  | _ => (cur, some (.jsonTypeMismatch field))

/-- Decode a JSON value into a `map[string]interface{}` field. -/
def storeObj (field : String) (cur : List (String × GoValue)) (v : GoValue) :
    List (String × GoValue) × Option GoError :=
  match v with
  | .obj o => (o, none)
  | .null => (cur, none)
  | _ => (cur, some (.jsonTypeMismatch field))

/-- Decode a JSON value into an `int` field. -/
def storeInt (field : String) (cur : Int) (v : GoValue) :
    Int × Option GoError :=
  match v with
  | .num n => (n, none)
  | .null => (cur, none)
  | _ => (cur, some (.jsonTypeMismatch field))

/-- Store one input entry into the struct, returning the updated struct
and the type error of this entry, if any. -/
def setField (f : FormattedTask) (k : String) (v : GoValue) :
    FormattedTask × Option GoError :=
  if k == "task" then
    ({ f with Task := (storeString "task" f.Task v).1 }, (storeString "task" f.Task v).2)
  else if k == "id" then
    ({ f with Id := (storeString "id" f.Id v).1 }, (storeString "id" f.Id v).2)
  else if k == "args" then
    ({ f with Args := (storeStringList "args" f.Args v).1 }, (storeStringList "args" f.Args v).2)
  else if k == "kwargs" then
    ({ f with KWArgs := (storeObj "kwargs" f.KWArgs v).1 }, (storeObj "kwargs" f.KWArgs v).2)
  else if k == "retries" then
    ({ f with Retries := (storeInt "retries" f.Retries v).1 }, (storeInt "retries" f.Retries v).2)
  else if k == "eta" then
    ({ f with ETA := (storeString "eta" f.ETA v).1 }, (storeString "eta" f.ETA v).2)
  else if k == "expires" then
    ({ f with Expires := (storeString "expires" f.Expires v).1 }, (storeString "expires" f.Expires v).2)
  else (f, none)

/-- Fold the entries of the input object over the zero struct, keeping
the first error. -/
def applyEntries (st : FormattedTask × Option GoError)
    (entries : List (String × GoValue)) : FormattedTask × Option GoError :=
  entries.foldl
    (fun acc kv =>
      let (f1, e1) := setField acc.1 kv.1 kv.2
      (f1, acc.2 <|> e1))
    st

/-- Model of `json.Unmarshal(data, &task)` for `task : FormattedTask`: malformed
bytes and non-object documents leave the struct at its zero value and
report the error; an object's entries are stored field by field. -/
def unmarshalFormatted (data : JsonData) : FormattedTask × Option GoError :=
  match data with
  | .malformed raw => (FormattedTask.zeroFT, some (.jsonMalformed raw))
  | .valid (.obj entries) => applyEntries (FormattedTask.zeroFT, none) entries
  | .valid _ => (FormattedTask.zeroFT, some (.jsonTypeMismatch "FormattedTask"))

/-- Model of `time.Parse` as used on the struct's time strings: the parsed time, or
the zero time together with the parse error (Go's `Parse` returns
`Time{}` on failure). -/
def parseTimeField (s : String) : GoTime × Option GoError :=
  match goParseTime s with
  | .ok t => (t, none)
  | .error e => (GoTime.zero, some e)

/-- Model of `Task.UnmarshalJSON` (celery.go lines 86-99).  Mirrors the source
line by line: `err` is assigned by `json.Unmarshal`, then overwritten by
the `eta` parse, then overwritten again by the `expires` parse, and only
that last value is returned.  The receiver's fields are all overwritten
with whatever was parsed. -/
def Task.UnmarshalJSON (_t : Celery.Task) (data : JsonData) : Celery.Task × Option GoError :=
  let (task, _errJson) := unmarshalFormatted data
  let (eta, _errEta) := parseTimeField task.ETA
  let (expires, errExpires) := parseTimeField task.Expires
  ({ Task := task.Task
     Id := task.Id
     Args := task.Args
     KWArgs := task.KWArgs
     Retries := task.Retries
     ETA := eta
     Expires := expires },
   errExpires)

/-! ## The transport adapter (celery.go lines 101-141) -/

/-- Value of `amqp.Persistent`. -/
def amqpPersistent : Nat := 2

/-- The `amqp.Publishing` fields the code sets. -/
structure Publishing where
  DeliveryMode : Nat
  Timestamp : GoTime
  ContentType : String
  ContentEncoding : String
  Body : JsonData

/-- One recorded `ch.Publish(exchange, key, mandatory, immediate, msg)` call. -/
structure PublishCall where
  exchange : String
  key : String
  mandatory : Bool
  immediate : Bool
  msg : Publishing

/-- The broker channel as seen by `Publish`: what `ch.Publish` returns. -/
structure PubStub where
  publishResult : Option GoError

/-- Model of `Task.Publish` (celery.go lines 104-119): marshal the task — failing
immediately, with nothing sent, on a marshal error — then publish one
persistent `application/json` / `utf-8` message stamped with the current
time, returning the channel's answer verbatim.  The result is the
returned error (if any) together with the list of publish calls made. -/
def Task.Publish (t : Celery.Task) (ch : PubStub) (exchange key : String)
    (now : GoTime) : Option GoError × List PublishCall :=
  match t.MarshalJSON with
  | .error e => (some e, [])
  | .ok body =>
    let msg : Publishing :=
      { DeliveryMode := amqpPersistent
        Timestamp := now
        ContentType := "application/json"
        ContentEncoding := "utf-8"
        Body := body }
    (ch.publishResult, [⟨exchange, key, false, false, msg⟩])

/-- One message received from the queue (the fields the code reads). -/
structure Delivery where
  Body : JsonData
  DeliveryTag : Nat

/-- The broker channel as seen by `Consume`: the answer to
`ch.QueueBind` and the answer to `ch.Consume` (a finite delivery stream;
its end models the broker closing the stream). -/
structure ConsumeStub where
  bindResult : Option GoError
  consumeResult : Except GoError (List Delivery)

/-- The observable actions `Consume` performs, in order. -/
inductive ConsumeEvent where
  /-- Call `ch.QueueBind(queue, key, exchange, noWait, nil)` -/
  | bind (queue key exchange : String) (noWait : Bool) : ConsumeEvent
  /-- Call `ch.Consume(queue, consumer, autoAck, exclusive, noLocal, noWait, nil)` -/
  | openStream (queue consumer : String)
      (autoAck exclusive noLocal noWait : Bool) : ConsumeEvent
  /-- Send `messages <- *task` -/
  | emit (t : Task) : ConsumeEvent
  /-- Call `ch.Ack(deliveryTag, multiple)` -/
  | ack (deliveryTag : Nat) (multiple : Bool) : ConsumeEvent

/-- Model of `Consume` (celery.go lines 121-141): bind the queue (returning the
bind error at once on failure), open the delivery stream with
`ch.Consume(queue, "", false, true, false, false, nil)` (returning its
error at once on failure), then for each delivery decode the body into a
fresh task with the error ignored, send the task, and ack that single
delivery; return `nil` when the stream ends.  The result is the returned
error (if any) together with the ordered trace of channel actions. -/
def Consume (ch : ConsumeStub) (queue exchange key : String) :
    Option GoError × List ConsumeEvent :=
  let bindEv := ConsumeEvent.bind queue key exchange false
  match ch.bindResult with
  | some e => (some e, [bindEv])
  | none =>
    let openEv := ConsumeEvent.openStream queue "" false true false false
    match ch.consumeResult with
    | .error e => (some e, [bindEv, openEv])
    | .ok deliveries =>
      (none, bindEv :: openEv :: deliveries.flatMap (fun msg =>
        [ConsumeEvent.emit (Task.UnmarshalJSON Task.zeroTask msg.Body).1,
         ConsumeEvent.ack msg.DeliveryTag false]))

/-! ## Trace observers -/

/-- The bind calls of a trace, with their arguments. -/
def bindCalls (tr : List ConsumeEvent) : List (String × String × String × Bool) :=
  tr.filterMap fun e =>
    match e with
    | .bind q k ex nw => some (q, k, ex, nw)
    | _ => none

/-- The stream-open calls of a trace, with their arguments. -/
def openCalls (tr : List ConsumeEvent) :
    List (String × String × Bool × Bool × Bool × Bool) :=
  tr.filterMap fun e =>
    match e with
    | .openStream q c aa ex nl nw => some (q, c, aa, ex, nl, nw)
    | _ => none

/-- The tasks pushed onto the output channel, in order. -/
def emittedTasks (tr : List ConsumeEvent) : List Task :=
  tr.filterMap fun e =>
    match e with
    | .emit t => some t
    | _ => none

/-- The acknowledgments, in order, each with its `multiple` flag. -/
def ackCalls (tr : List ConsumeEvent) : List (Nat × Bool) :=
  tr.filterMap fun e =>
    match e with
    | .ack tag m => some (tag, m)
    | _ => none

/-- Look up a key in an encoded JSON object (last entry wins, as for Go's
duplicate-key handling). -/
def lookupKey (k : String) (entries : List (String × GoValue)) : Option GoValue :=
  ((entries.filter (fun kv => kv.1 == k)).getLast?).map (fun kv => kv.2)

/-- The string value of the `eta` key of an encoded task, when present. -/
def etaStringOf (r : Except GoError JsonData) : Option String :=
  match r with
  | .ok (.valid (.obj entries)) =>
    match lookupKey "eta" entries with
    | some (.str s) => some s
    | _ => none
  | _ => none

/-- The string value of the `expires` key of an encoded task, when present. -/
def expiresStringOf (r : Except GoError JsonData) : Option String :=
  match r with
  | .ok (.valid (.obj entries)) =>
    match lookupKey "expires" entries with
    | some (.str s) => some s
    | _ => none
  | _ => none

/-! ## Lemmas: digits and fixed-width fields -/

theorem isDigit_digitChar (d : Nat) (hd : d < 10) : (digitChar d).isDigit = true := by
  interval_cases d <;> decide

theorem digitVal_digitChar (d : Nat) (hd : d < 10) : digitVal (digitChar d) = d := by
  interval_cases d <;> decide

theorem readDigit_digitChar (d : Nat) (hd : d < 10) (r : List Char) :
    readDigit (digitChar d :: r) = some (d, r) := by
  simp [readDigit, isDigit_digitChar d hd, digitVal_digitChar d hd]

theorem read2_pad2c (n : Nat) (hn : n < 100) (r : List Char) :
    read2 (pad2c n ++ r) = some (n, r) := by
  have h1 : n / 10 % 10 < 10 := Nat.mod_lt _ (by omega)
  have h2 : n % 10 < 10 := Nat.mod_lt _ (by omega)
  simp only [pad2c, List.cons_append, List.nil_append, read2,
    readDigit_digitChar _ h1, readDigit_digitChar _ h2]
  have : 10 * (n / 10 % 10) + n % 10 = n := by omega
  rw [this]

theorem read4_pad4c (n : Nat) (hn : n < 10000) (r : List Char) :
    read4 (pad4c n ++ r) = some (n, r) := by
  have e : pad4c n ++ r = pad2c (n / 100) ++ (pad2c (n % 100) ++ r) := by
    simp only [pad4c, pad2c, List.cons_append, List.nil_append]
    have e1 : n / 1000 % 10 = n / 100 / 10 % 10 := by omega
    have e2 : n / 100 % 10 = n / 100 % 10 := rfl
    have e3 : n / 10 % 10 = n % 100 / 10 % 10 := by omega
    have e4 : n % 10 = n % 100 % 10 := by omega
    rw [e1, e3, e4]
  rw [e]
  simp only [read4, read2_pad2c (n / 100) (by omega),
    read2_pad2c (n % 100) (by omega)]
  have : 100 * (n / 100) + n % 100 = n := by omega
  rw [this]

theorem expectChar_cons_self (c : Char) (r : List Char) :
    expectChar c (c :: r) = some r := by
  simp [expectChar]

/-! ## Lemmas: the fractional part -/

theorem digitsVal_append_singleton (l : List Char) (c : Char) :
    digitsVal (l ++ [c]) = 10 * digitsVal l + digitVal c := by
  simp [digitsVal, List.foldl_append]

theorem mem_pad6c_isDigit (n : Nat) (c : Char) (hc : c ∈ pad6c n) :
    c.isDigit = true := by
  have h10 : ∀ m : Nat, m % 10 < 10 := fun m => Nat.mod_lt _ (by omega)
  fin_cases hc <;> exact isDigit_digitChar _ (h10 _)

theorem digitsVal_pad6c (n : Nat) (hn : n < 1000000) : digitsVal (pad6c n) = n := by
  have h10 : ∀ m : Nat, m % 10 < 10 := fun m => Nat.mod_lt _ (by omega)
  simp only [pad6c, digitsVal, List.foldl_cons, List.foldl_nil,
    digitVal_digitChar _ (h10 _)]
  omega

theorem dropWhileZero_val (r : List Char) :
    digitsVal (r.dropWhile (fun c => c == '0')).reverse *
      10 ^ (r.length - (r.dropWhile (fun c => c == '0')).length) =
    digitsVal r.reverse := by
  induction r with
  | nil => simp [digitsVal]
  | cons c cs ih =>
    by_cases h : c = '0'
    · subst h
      have hlen : (cs.dropWhile (fun c => c == '0')).length ≤ cs.length :=
        (List.dropWhile_sublist _).length_le
      rw [List.dropWhile_cons_of_pos (by simp), List.reverse_cons,
        digitsVal_append_singleton]
      have hd : digitVal '0' = 0 := by decide
      have hexp : (cs.length + 1) - (cs.dropWhile (fun c => c == '0')).length =
          ((cs.length - (cs.dropWhile (fun c => c == '0')).length)) + 1 := by omega
      rw [List.length_cons, hexp, pow_succ, hd]
      calc digitsVal (cs.dropWhile (fun c => c == '0')).reverse *
            (10 ^ (cs.length - (cs.dropWhile (fun c => c == '0')).length) * 10)
          = digitsVal (cs.dropWhile (fun c => c == '0')).reverse *
            10 ^ (cs.length - (cs.dropWhile (fun c => c == '0')).length) * 10 := by ring
        _ = digitsVal cs.reverse * 10 := by rw [ih]
        _ = 10 * digitsVal cs.reverse + 0 := by ring
    · rw [List.dropWhile_cons_of_neg (by simp [h])]
      simp

theorem dropTrailingZeros_val (l : List Char) :
    digitsVal (dropTrailingZeros l) *
      10 ^ (l.length - (dropTrailingZeros l).length) = digitsVal l := by
  have h := dropWhileZero_val l.reverse
  simpa [dropTrailingZeros] using h

theorem dropTrailingZeros_length_le (l : List Char) :
    (dropTrailingZeros l).length ≤ l.length := by
  have : (l.reverse.dropWhile (fun c => c == '0')).length ≤ l.reverse.length :=
    (List.dropWhile_sublist _).length_le
  simpa [dropTrailingZeros] using this

theorem mem_dropTrailingZeros (l : List Char) (c : Char)
    (hc : c ∈ dropTrailingZeros l) : c ∈ l := by
  simp only [dropTrailingZeros, List.mem_reverse] at hc
  have := (List.dropWhile_sublist (l := l.reverse) (fun c => c == '0')).mem hc
  simpa using this

theorem takeWhile_of_all {p : Char → Bool} (l : List Char)
    (h : ∀ c ∈ l, p c = true) : l.takeWhile p = l := by
  induction l with
  | nil => rfl
  | cons c cs ih =>
    rw [List.takeWhile_cons_of_pos (h c (by simp))]
    rw [ih (fun c hc => h c (by simp [hc]))]

theorem dropWhile_of_all {p : Char → Bool} (l : List Char)
    (h : ∀ c ∈ l, p c = true) : l.dropWhile p = [] := by
  induction l with
  | nil => rfl
  | cons c cs ih =>
    rw [List.dropWhile_cons_of_pos (h c (by simp))]
    exact ih (fun c hc => h c (by simp [hc]))

theorem readFrac_fracChars (ns : Nat) (hns : ns < 1000000000)
    (hmu : ns % 1000 = 0) : readFrac (fracChars ns) = some (ns, []) := by
  have hmu6 : ns / 1000 < 1000000 := by omega
  have hlen6 : (pad6c (ns / 1000)).length = 6 := by simp [pad6c]
  rcases hds : dropTrailingZeros (pad6c (ns / 1000)) with _ | ⟨d, ds⟩
  · -- all six digits were zeros: the value is zero and nothing is printed
    have hval := dropTrailingZeros_val (pad6c (ns / 1000))
    rw [hds, digitsVal_pad6c _ hmu6] at hval
    simp only [digitsVal, List.foldl_nil, Nat.zero_mul] at hval
    have hns0 : ns = 0 := by omega
    have hfc : fracChars ns = [] := by simp [fracChars, hds]
    rw [hfc, hns0]
    rfl
  · -- a nonempty fraction is printed and parses back
    have hds_digits : ∀ c ∈ (d :: ds), c.isDigit = true := by
      intro c hc
      exact mem_pad6c_isDigit _ c (mem_dropTrailingZeros _ c (by rw [hds]; exact hc))
    have hval := dropTrailingZeros_val (pad6c (ns / 1000))
    rw [hds, hlen6, digitsVal_pad6c _ hmu6] at hval
    have hlen : (d :: ds).length ≤ 6 := by
      have := dropTrailingZeros_length_le (pad6c (ns / 1000))
      rw [hds, hlen6] at this
      exact this
    have hdd : d.isDigit = true := hds_digits d (by simp)
    have hfc : fracChars ns = '.' :: d :: ds := by simp [fracChars, hds]
    rw [hfc]
    simp only [readFrac, hdd, takeWhile_of_all _ hds_digits,
      dropWhile_of_all _ hds_digits]
    have h9 : (d :: ds).length ≤ 9 := Nat.le_trans hlen (by omega)
    rw [if_pos h9]
    have hsplit : 9 - (d :: ds).length = (6 - (d :: ds).length) + 3 := by omega
    have hv : digitsVal (d :: ds) * 10 ^ (9 - (d :: ds).length) = ns := by
      rw [hsplit, pow_add]
      calc digitsVal (d :: ds) * (10 ^ (6 - (d :: ds).length) * 10 ^ 3)
          = digitsVal (d :: ds) * 10 ^ (6 - (d :: ds).length) * 1000 := by ring
        _ = (ns / 1000) * 1000 := by rw [hval]
        _ = ns := by omega
    rw [hv]
    simp

/-! ## The time round-trip -/

theorem daysInMonth_le (y m : Nat) : daysInMonth y m ≤ 31 := by
  unfold daysInMonth
  split
  all_goals first
    | omega
    | (split <;> omega)

theorem valid_bounds (t : GoTime) (hv : t.valid = true) :
    t.year ≤ 9999 ∧ t.month ≤ 12 ∧ t.day ≤ 31 ∧ t.hour < 24 ∧
    t.minute < 60 ∧ t.second < 60 ∧ t.nanosecond < 1000000000 := by
  have h31 := daysInMonth_le t.year t.month
  simp only [GoTime.valid, parseRangeOk, Bool.and_eq_true, decide_eq_true_eq] at hv
  omega

theorem valid_rangeOk (t : GoTime) (hv : t.valid = true) :
    parseRangeOk t.year t.month t.day t.hour t.minute t.second = true := by
  simp only [GoTime.valid, Bool.and_eq_true, decide_eq_true_eq] at hv
  exact hv.1.2

theorem parseCore_goFormatChars (t : GoTime) (hv : t.valid = true)
    (hns : t.nanosecond % 1000 = 0) : parseCore (goFormatChars t) = some t := by
  obtain ⟨hy, hmo, hd, hh, hmi, hs, hn⟩ := valid_bounds t hv
  rw [goFormatChars, parseCore]
  rw [read4_pad4c t.year (by omega)]
  simp only [Option.some_bind]
  rw [expectChar_cons_self]
  simp only [Option.some_bind]
  rw [read2_pad2c t.month (by omega)]
  simp only [Option.some_bind]
  rw [expectChar_cons_self]
  simp only [Option.some_bind]
  rw [read2_pad2c t.day (by omega)]
  simp only [Option.some_bind]
  rw [expectChar_cons_self]
  simp only [Option.some_bind]
  rw [read2_pad2c t.hour (by omega)]
  simp only [Option.some_bind]
  rw [expectChar_cons_self]
  simp only [Option.some_bind]
  rw [read2_pad2c t.minute (by omega)]
  simp only [Option.some_bind]
  rw [expectChar_cons_self]
  simp only [Option.some_bind]
  rw [read2_pad2c t.second (by omega)]
  simp only [Option.some_bind]
  rw [readFrac_fracChars t.nanosecond (by omega) hns]
  simp only [Option.some_bind]
  simp [valid_rangeOk t hv]

theorem goParseTime_goFormatTime (t : GoTime) (hv : t.valid = true)
    (hns : t.nanosecond % 1000 = 0) : goParseTime (goFormatTime t) = .ok t := by
  have h2 : (goFormatTime t).toList = goFormatChars t := rfl
  rw [goParseTime, h2, parseCore_goFormatChars t hv hns]

/-- Format never yields the empty string (it always starts with the year). -/
theorem goFormatTime_ne_empty (t : GoTime) : goFormatTime t ≠ "" := by
  intro h
  have h2 : (goFormatTime t).toList = goFormatChars t := rfl
  rw [h] at h2
  have h3 := congrArg List.length h2
  simp [goFormatChars, pad4c, pad2c] at h3

/-! ## The JSON object round-trip -/

theorem decodeStringList_map_str (xs : List String) :
    decodeStringList (xs.map GoValue.str) = (xs, none) := by
  induction xs with
  | nil => rfl
  | cons x xs ih => simp [decodeStringList, ih]

theorem applyEntries_append (st : FormattedTask × Option GoError)
    (a b : List (String × GoValue)) :
    applyEntries st (a ++ b) = applyEntries (applyEntries st a) b := by
  simp [applyEntries, List.foldl_append]

theorem applyEntries_nil (st : FormattedTask × Option GoError) :
    applyEntries st [] = st := rfl

theorem applyEntries_cons (st : FormattedTask × Option GoError)
    (k : String) (v : GoValue) (rest : List (String × GoValue)) :
    applyEntries st ((k, v) :: rest) =
      applyEntries ((setField st.1 k v).1, st.2 <|> (setField st.1 k v).2) rest := by
  simp [applyEntries]

theorem setField_task (f : FormattedTask) (s : String) :
    setField f "task" (.str s) = ({ f with Task := s }, none) := by
  simp [setField, storeString]

theorem setField_id (f : FormattedTask) (s : String) :
    setField f "id" (.str s) = ({ f with Id := s }, none) := by
  simp [setField, storeString]

theorem setField_args (f : FormattedTask) (xs : List String) :
    setField f "args" (.arr (xs.map .str)) = ({ f with Args := xs }, none) := by
  simp [setField, storeStringList, decodeStringList_map_str]

theorem setField_kwargs (f : FormattedTask) (o : List (String × GoValue)) :
    setField f "kwargs" (.obj o) = ({ f with KWArgs := o }, none) := by
  simp [setField, storeObj]

theorem setField_retries (f : FormattedTask) (n : Int) :
    setField f "retries" (.num n) = ({ f with Retries := n }, none) := by
  simp [setField, storeInt]

theorem setField_eta (f : FormattedTask) (s : String) :
    setField f "eta" (.str s) = ({ f with ETA := s }, none) := by
  simp [setField, storeString]

theorem setField_expires (f : FormattedTask) (s : String) :
    setField f "expires" (.str s) = ({ f with Expires := s }, none) := by
  simp [setField, storeString]

theorem applyEntries_wireEntries (f : FormattedTask) :
    applyEntries (FormattedTask.zeroFT, none) (wireEntries f) = (f, none) := by
  obtain ⟨T, I, A, K, R, E, X⟩ := f
  rcases A with _ | ⟨a, A⟩ <;> rcases K with _ | ⟨kv, K⟩ <;>
    by_cases hR : R = 0 <;> by_cases hE : E = "" <;> by_cases hX : X = ""
  all_goals
    simp only [wireEntries, hR, hE, hX, List.isEmpty_nil, List.isEmpty_cons,
      if_true, if_false, Bool.false_eq_true, ite_true, ite_false,
      beq_iff_eq, List.nil_append, List.append_nil,
      List.cons_append, List.singleton_append, applyEntries_append,
      applyEntries_cons, applyEntries_nil, setField_task, setField_id,
      setField_args, setField_kwargs, setField_retries, setField_eta,
      setField_expires, Option.none_orElse, Option.orElse_none]
  all_goals simp [FormattedTask.zeroFT, hR, hE, hX]

theorem unmarshal_wire (f : FormattedTask) :
    unmarshalFormatted (.valid (.obj (wireEntries f))) = (f, none) := by
  rw [unmarshalFormatted, applyEntries_wireEntries]

/-! ## Trace observer lemmas -/

theorem bindCalls_append (a b : List ConsumeEvent) :
    bindCalls (a ++ b) = bindCalls a ++ bindCalls b := by
  simp [bindCalls]

theorem openCalls_append (a b : List ConsumeEvent) :
    openCalls (a ++ b) = openCalls a ++ openCalls b := by
  simp [openCalls]

theorem emittedTasks_append (a b : List ConsumeEvent) :
    emittedTasks (a ++ b) = emittedTasks a ++ emittedTasks b := by
  simp [emittedTasks]

theorem ackCalls_append (a b : List ConsumeEvent) :
    ackCalls (a ++ b) = ackCalls a ++ ackCalls b := by
  simp [ackCalls]

theorem bindCalls_pairBlocks (f : Delivery → Celery.Task) (g : Delivery → Nat)
    (ds : List Delivery) :
    bindCalls (ds.flatMap fun d => [.emit (f d), .ack (g d) false]) = [] := by
  induction ds with
  | nil => rfl
  | cons d ds ih => simp [bindCalls] at ih ⊢; exact ih

theorem openCalls_pairBlocks (f : Delivery → Celery.Task) (g : Delivery → Nat)
    (ds : List Delivery) :
    openCalls (ds.flatMap fun d => [.emit (f d), .ack (g d) false]) = [] := by
  induction ds with
  | nil => rfl
  | cons d ds ih => simp [openCalls] at ih ⊢; exact ih

theorem emittedTasks_pairBlocks (f : Delivery → Celery.Task) (g : Delivery → Nat)
    (ds : List Delivery) :
    emittedTasks (ds.flatMap fun d => [.emit (f d), .ack (g d) false]) = ds.map f := by
  induction ds with
  | nil => rfl
  | cons d ds ih => simp [emittedTasks] at ih ⊢; exact ih

theorem ackCalls_pairBlocks (f : Delivery → Celery.Task) (g : Delivery → Nat)
    (ds : List Delivery) :
    ackCalls (ds.flatMap fun d => [.emit (f d), .ack (g d) false]) =
      ds.map (fun d => (g d, false)) := by
  induction ds with
  | nil => rfl
  | cons d ds ih => simp [ackCalls] at ih ⊢; exact ih

/-! ## Claim theorems: the transport adapter -/

/-- C6: `Publish` fails immediately and sends nothing when encoding
fails; on success it publishes exactly one message whose body is the
encoded bytes, with persistent delivery mode, content type
`application/json`, content encoding `utf-8` and the send-time
timestamp, and the channel's error is returned to the caller
unchanged. -/
theorem publish_contract (t : Celery.Task) (ch : PubStub) (ex k : String)
    (now : GoTime) :
    (∀ e, t.MarshalJSON = .error e → t.Publish ch ex k now = (some e, [])) ∧
    (∀ body, t.MarshalJSON = .ok body →
      t.Publish ch ex k now =
        (ch.publishResult,
         [⟨ex, k, false, false,
           ⟨amqpPersistent, now, "application/json", "utf-8", body⟩⟩])) := by
  constructor
  · intro e he
    simp [Task.Publish, he]
  · intro body hb
    simp [Task.Publish, hb]

/-- C6 witness: a task whose kwargs hold an unmarshalable value is
rejected with nothing sent; a plain task is sent as one persistent
`application/json` / `utf-8` message. -/
theorem publish_contract_check :
    Task.Publish ⟨"t", "i", [], [("f", .unmarshalable "func")], 0, GoTime.zero, GoTime.zero⟩
        ⟨none⟩ "" "celery" GoTime.zero
      = (some (.jsonUnsupportedValue "kwargs"), []) ∧
    Task.Publish ⟨"add", "i", [], [], 0, GoTime.zero, GoTime.zero⟩
        ⟨none⟩ "" "celery" GoTime.zero
      = (none,
         [⟨"", "celery", false, false,
           ⟨amqpPersistent, GoTime.zero, "application/json", "utf-8",
            .valid (.obj [("task", .str "add"), ("id", .str "i")])⟩⟩]) :=
  ⟨(publish_contract _ _ _ _ _).1 _ rfl, (publish_contract _ _ _ _ _).2 _ rfl⟩

/-- C4 counterexample: on a concrete stub, the single stream-open call
`Consume` makes passes `exclusive = true` (the fourth flag), so the
consumption is exclusive, not non-exclusive as claimed. -/
theorem consume_stream_open_is_exclusive :
    openCalls (Consume ⟨none, .ok []⟩ "q1" "ex1" "rk1").2
      = [("q1", "", false, true, false, false)] ∧
    (∀ q c aa nl nw, ¬ (q, c, aa, false, nl, nw) ∈
      openCalls (Consume ⟨none, .ok []⟩ "q1" "ex1" "rk1").2) := by
  constructor
  · rfl
  · intro q c aa nl nw h
    simp [Consume, openCalls] at h

/-- C4 amended: `Consume` performs exactly one queue-to-exchange binding
with the given routing key, and then (when the bind succeeds) opens
exactly one delivery stream from the queue with manual acknowledgment
(`autoAck = false`) and `exclusive = true`. -/
theorem consume_one_bind_then_manualack_exclusive_stream
    (st : ConsumeStub) (q ex k : String) :
    bindCalls (Consume st q ex k).2 = [(q, k, ex, false)] ∧
    (st.bindResult = none →
      openCalls (Consume st q ex k).2 = [(q, "", false, true, false, false)] ∧
      (Consume st q ex k).2.take 2 =
        [.bind q k ex false, .openStream q "" false true false false]) ∧
    (∀ e, st.bindResult = some e → openCalls (Consume st q ex k).2 = []) := by
  obtain ⟨br, cr⟩ := st
  cases br with
  | some e =>
    refine ⟨rfl, ?_, ?_⟩
    · intro hb
      exact Option.noConfusion hb
    · intro e2 hb
      rfl
  | none =>
    cases cr with
    | error e =>
      refine ⟨rfl, ?_, ?_⟩
      · intro hb
        exact ⟨rfl, rfl⟩
      · intro e2 hb
        exact Option.noConfusion hb
    | ok ds =>
      have htr : (Consume ⟨none, .ok ds⟩ q ex k).2 =
          [.bind q k ex false, .openStream q "" false true false false]
          ++ ds.flatMap (fun d =>
              [.emit (Task.UnmarshalJSON Task.zeroTask d.Body).1,
               .ack d.DeliveryTag false]) := rfl
      refine ⟨?_, ?_, ?_⟩
      · rw [htr, bindCalls_append, bindCalls_pairBlocks]
        rfl
      · intro hb
        refine ⟨?_, ?_⟩
        · rw [htr, openCalls_append, openCalls_pairBlocks]
          rfl
        · rw [htr]
          rfl
      · intro e2 hb
        exact Option.noConfusion hb

/-- C4 witness: on a stub whose bind succeeds and whose stream is empty,
the trace is exactly one bind with the routing key followed by one
manual-ack exclusive stream open. -/
theorem consume_one_bind_then_manualack_exclusive_stream_check :
    bindCalls (Consume ⟨none, .ok []⟩ "q2" "ex2" "rk2").2 = [("q2", "rk2", "ex2", false)] ∧
    openCalls (Consume ⟨none, .ok []⟩ "q2" "ex2" "rk2").2
      = [("q2", "", false, true, false, false)] := by
  have h := consume_one_bind_then_manualack_exclusive_stream ⟨none, .ok []⟩ "q2" "ex2" "rk2"
  exact ⟨h.1, (h.2.1 rfl).1⟩

/-- C7: with bind and stream open succeeding, the consume loop emits the
decoded task of each delivery in arrival order, and acknowledges each
single delivery (multiple = false) right after pushing its task: the
trace is exactly the per-delivery emit/ack blocks in stream order, so n
deliveries give n acknowledgments in the same order. -/
theorem consume_order_and_acks (st : ConsumeStub) (q ex k : String)
    (ds : List Delivery) (hb : st.bindResult = none)
    (hc : st.consumeResult = .ok ds) :
    (Consume st q ex k).2 =
      [.bind q k ex false, .openStream q "" false true false false]
      ++ ds.flatMap (fun d =>
          [.emit (Task.UnmarshalJSON Task.zeroTask d.Body).1,
           .ack d.DeliveryTag false]) ∧
    emittedTasks (Consume st q ex k).2 =
      ds.map (fun d => (Task.UnmarshalJSON Task.zeroTask d.Body).1) ∧
    ackCalls (Consume st q ex k).2 = ds.map (fun d => (d.DeliveryTag, false)) ∧
    (ackCalls (Consume st q ex k).2).length = ds.length := by
  have htr : (Consume st q ex k).2 =
      [.bind q k ex false, .openStream q "" false true false false]
      ++ ds.flatMap (fun d =>
          [.emit (Task.UnmarshalJSON Task.zeroTask d.Body).1,
           .ack d.DeliveryTag false]) := by
    simp [Consume, hb, hc]
  refine ⟨htr, ?_, ?_, ?_⟩
  · rw [htr, emittedTasks_append, emittedTasks_pairBlocks]
    rfl
  · rw [htr, ackCalls_append, ackCalls_pairBlocks]
    rfl
  · rw [htr, ackCalls_append, ackCalls_pairBlocks]
    simp [ackCalls]

/-- C7 witness: three deliveries produce the three decoded tasks in
order and exactly three single acknowledgments in the same order. -/
theorem consume_order_and_acks_check :
    emittedTasks (Consume ⟨none, .ok
        [⟨.valid (.obj [("task", .str "a"), ("id", .str "1")]), 11⟩,
         ⟨.valid (.obj [("task", .str "b"), ("id", .str "2")]), 12⟩,
         ⟨.valid (.obj [("task", .str "c"), ("id", .str "3")]), 13⟩]⟩
      "q" "" "celery").2 =
      [(Task.UnmarshalJSON Task.zeroTask (.valid (.obj [("task", .str "a"), ("id", .str "1")]))).1,
       (Task.UnmarshalJSON Task.zeroTask (.valid (.obj [("task", .str "b"), ("id", .str "2")]))).1,
       (Task.UnmarshalJSON Task.zeroTask (.valid (.obj [("task", .str "c"), ("id", .str "3")]))).1] ∧
    ackCalls (Consume ⟨none, .ok
        [⟨.valid (.obj [("task", .str "a"), ("id", .str "1")]), 11⟩,
         ⟨.valid (.obj [("task", .str "b"), ("id", .str "2")]), 12⟩,
         ⟨.valid (.obj [("task", .str "c"), ("id", .str "3")]), 13⟩]⟩
      "q" "" "celery").2 = [(11, false), (12, false), (13, false)] := by
  have h := consume_order_and_acks ⟨none, .ok
        [⟨.valid (.obj [("task", .str "a"), ("id", .str "1")]), 11⟩,
         ⟨.valid (.obj [("task", .str "b"), ("id", .str "2")]), 12⟩,
         ⟨.valid (.obj [("task", .str "c"), ("id", .str "3")]), 13⟩]⟩
      "q" "" "celery" _ rfl rfl
  exact ⟨h.2.1, h.2.2.1⟩

/-- C8: a bind failure is returned at once with zero stream-open
attempts and no consumption; a stream-open failure is returned with no
consumption; and `Consume` returns nil exactly when bind and stream open
succeed, so that the loop ran to the end of the (finite) delivery
stream, which models the broker closing it. -/
theorem consume_termination_and_errors (st : ConsumeStub) (q ex k : String) :
    (∀ e, st.bindResult = some e →
      Consume st q ex k = (some e, [.bind q k ex false]) ∧
      openCalls (Consume st q ex k).2 = [] ∧
      emittedTasks (Consume st q ex k).2 = [] ∧
      ackCalls (Consume st q ex k).2 = []) ∧
    (∀ e, st.bindResult = none → st.consumeResult = .error e →
      Consume st q ex k =
        (some e, [.bind q k ex false, .openStream q "" false true false false]) ∧
      emittedTasks (Consume st q ex k).2 = [] ∧
      ackCalls (Consume st q ex k).2 = []) ∧
    ((Consume st q ex k).1 = none ↔
      st.bindResult = none ∧ ∃ ds, st.consumeResult = .ok ds) := by
  obtain ⟨br, cr⟩ := st
  refine ⟨?_, ?_, ?_⟩
  · intro e hb
    subst hb
    exact ⟨rfl, rfl, rfl, rfl⟩
  · intro e hb hc
    subst hb
    subst hc
    exact ⟨rfl, rfl, rfl⟩
  · cases br with
    | some e => simp [Consume]
    | none =>
      cases cr with
      | error e => simp [Consume]
      | ok ds => simp [Consume]

/-- C8 witness: a failing bind is returned with an empty open-call list;
a failing stream open is returned; an empty successful stream returns
nil. -/
theorem consume_termination_and_errors_check :
    Consume ⟨some (.amqpFailure "bind failed"), .ok []⟩ "q" "ex" "rk"
      = (some (.amqpFailure "bind failed"), [.bind "q" "rk" "ex" false]) ∧
    openCalls (Consume ⟨some (.amqpFailure "bind failed"), .ok []⟩ "q" "ex" "rk").2 = [] ∧
    (Consume ⟨none, .error (.amqpFailure "consume failed")⟩ "q" "ex" "rk").1
      = some (.amqpFailure "consume failed") ∧
    (Consume ⟨none, .ok []⟩ "q" "ex" "rk").1 = none := by
  have h1 := consume_termination_and_errors ⟨some (.amqpFailure "bind failed"), .ok []⟩ "q" "ex" "rk"
  have h2 := consume_termination_and_errors ⟨none, .error (.amqpFailure "consume failed")⟩ "q" "ex" "rk"
  have h3 := consume_termination_and_errors ⟨none, .ok ([] : List Delivery)⟩ "q" "ex" "rk"
  refine ⟨(h1.1 _ rfl).1, (h1.1 _ rfl).2.1, ?_, ?_⟩
  · rw [(h2.2.1 _ rfl rfl).1]
  · exact h3.2.2.mpr ⟨rfl, [], rfl⟩

/-! ## Claim theorems: encoding and decoding -/

theorem parseTimeField_format (tm : GoTime) (hv : tm.valid = true)
    (hns : tm.nanosecond % 1000 = 0) :
    parseTimeField (goFormatTime tm) = (tm, none) := by
  rw [parseTimeField, goParseTime_goFormatTime tm hv hns]

/-- C1: for a Task with non-empty name and id, arbitrary args, kwargs
(JSON-representable) and retries, and ETA/Expires both set to valid UTC
instants truncated to microseconds, decoding the encoding returns the
task with every field equal (times included) and no error. -/
theorem task_encode_decode_roundtrip (t : Celery.Task)
    (hT : t.Task ≠ "") (hI : t.Id ≠ "")
    (hKW : marshalableEntries t.KWArgs = true)
    (hEv : t.ETA.valid = true) (hEset : t.ETA.isZero = false)
    (hEus : t.ETA.nanosecond % 1000 = 0)
    (hXv : t.Expires.valid = true) (hXset : t.Expires.isZero = false)
    (hXus : t.Expires.nanosecond % 1000 = 0) :
    ∃ data, t.MarshalJSON = .ok data ∧
      Task.UnmarshalJSON Task.zeroTask data = (t, none) := by
  refine ⟨.valid (.obj (wireEntries
    ⟨t.Task, t.Id, t.Args, t.KWArgs, t.Retries,
     goFormatTime t.ETA, goFormatTime t.Expires⟩)), ?_, ?_⟩
  · simp [Task.MarshalJSON, marshalFormatted, hKW, hEset, hXset]
  · simp [Task.UnmarshalJSON, unmarshal_wire,
      parseTimeField_format t.ETA hEv hEus,
      parseTimeField_format t.Expires hXv hXus]

/-- C1 witness: a concrete task with both times set to microsecond
instants round-trips exactly. -/
theorem task_encode_decode_roundtrip_check :
    ∃ data,
      Task.MarshalJSON ⟨"add", "id-1", ["1", "2"], [("a", .num 5)], 3,
        ⟨2023, 5, 1, 12, 0, 0, 123456000⟩, ⟨2024, 2, 29, 23, 59, 59, 999999000⟩⟩
        = .ok data ∧
      Task.UnmarshalJSON Task.zeroTask data =
        (⟨"add", "id-1", ["1", "2"], [("a", .num 5)], 3,
          ⟨2023, 5, 1, 12, 0, 0, 123456000⟩, ⟨2024, 2, 29, 23, 59, 59, 999999000⟩⟩,
         none) :=
  task_encode_decode_roundtrip _ (by decide) (by decide) rfl
    (by decide) (by decide) (by decide) (by decide) (by decide) (by decide)

/-- C2 is false of the code (the code contradicts its own intent): on an
input whose `eta` is absent but whose `expires` parses, decoding returns
no error at all — the `eta` parse error is overwritten by the successful
`expires` parse — even though the eta field was left at the zero time by
a failed parse of the empty string. -/
theorem unmarshal_missing_eta_error_swallowed :
    (Task.UnmarshalJSON Task.zeroTask (.valid (.obj
      [("task", .str "t1"), ("id", .str "id1"),
       ("expires", .str "2023-05-01T12:00:00.123456")]))).2 = none ∧
    (parseTimeField "").2 = some (.timeParseFailed timeFormat "") ∧
    (Task.UnmarshalJSON Task.zeroTask (.valid (.obj
      [("task", .str "t1"), ("id", .str "id1"),
       ("expires", .str "2023-05-01T12:00:00.123456")]))).1.ETA = GoTime.zero :=
  ⟨rfl, rfl, rfl⟩

/-- C3 is false of the code (the code contradicts its own intent): the
malformed input bytes produce a JSON syntax error inside
`UnmarshalJSON`, but that error is discarded and the error actually
returned is the time-parse error for the empty `expires` string, so a
parse failure is not distinguished from a time-format failure. -/
theorem unmarshal_malformed_json_yields_time_error :
    Task.UnmarshalJSON Task.zeroTask (.malformed "\x7bnot json")
      = (Task.zeroTask, some (.timeParseFailed timeFormat "")) ∧
    (unmarshalFormatted (.malformed "\x7bnot json")).2
      = some (.jsonMalformed "\x7bnot json") :=
  ⟨rfl, rfl⟩

/-- C10: whenever decoding returns an error, the receiver's plain fields
have nevertheless been overwritten with whatever was parsed — the result
does not depend on the receiver at all — and on a JSON parse failure the
plain fields are the zero values; the task is not left unchanged. -/
theorem unmarshal_not_atomic (t0 : Celery.Task) (data : JsonData)
    (herr : (Task.UnmarshalJSON t0 data).2.isSome = true) :
    ((Task.UnmarshalJSON t0 data).1.Task = (unmarshalFormatted data).1.Task ∧
     (Task.UnmarshalJSON t0 data).1.Id = (unmarshalFormatted data).1.Id ∧
     (Task.UnmarshalJSON t0 data).1.Args = (unmarshalFormatted data).1.Args ∧
     (Task.UnmarshalJSON t0 data).1.KWArgs = (unmarshalFormatted data).1.KWArgs ∧
     (Task.UnmarshalJSON t0 data).1.Retries = (unmarshalFormatted data).1.Retries) ∧
    (∀ raw, data = .malformed raw →
      (Task.UnmarshalJSON t0 data).1.Task = "" ∧
      (Task.UnmarshalJSON t0 data).1.Id = "" ∧
      (Task.UnmarshalJSON t0 data).1.Args = [] ∧
      (Task.UnmarshalJSON t0 data).1.KWArgs = [] ∧
      (Task.UnmarshalJSON t0 data).1.Retries = 0) := by
  constructor
  · refine ⟨?_, ?_, ?_, ?_, ?_⟩ <;> simp [Task.UnmarshalJSON]
  · intro raw hd
    subst hd
    refine ⟨?_, ?_, ?_, ?_, ?_⟩ <;>
      simp [Task.UnmarshalJSON, unmarshalFormatted, FormattedTask.zeroFT]

/-- C10 witness: decoding malformed bytes into a receiver with non-zero
fields returns an error and zeroes all plain fields. -/
theorem unmarshal_not_atomic_check :
    ((Task.UnmarshalJSON ⟨"old", "o1", ["x"], [], 9, GoTime.zero, GoTime.zero⟩
        (.malformed "\x7bnot json")).2.isSome = true) ∧
    (Task.UnmarshalJSON ⟨"old", "o1", ["x"], [], 9, GoTime.zero, GoTime.zero⟩
        (.malformed "\x7bnot json")).1.Task = "" ∧
    (Task.UnmarshalJSON ⟨"old", "o1", ["x"], [], 9, GoTime.zero, GoTime.zero⟩
        (.malformed "\x7bnot json")).1.Args = [] ∧
    (Task.UnmarshalJSON ⟨"old", "o1", ["x"], [], 9, GoTime.zero, GoTime.zero⟩
        (.malformed "\x7bnot json")).1.Retries = 0 := by
  have h := unmarshal_not_atomic
    ⟨"old", "o1", ["x"], [], 9, GoTime.zero, GoTime.zero⟩
    (.malformed "\x7bnot json") rfl
  exact ⟨rfl, (h.2 _ rfl).1, (h.2 _ rfl).2.2.1, (h.2 _ rfl).2.2.2.2⟩

/-! ## The shape of the printed fraction -/

theorem head_dropWhile_false {p : Char → Bool} (r : List Char) (c : Char)
    (cs : List Char) (h : r.dropWhile p = c :: cs) : p c = false := by
  induction r with
  | nil => exact List.noConfusion h
  | cons a as ih =>
    by_cases hp : p a
    · rw [List.dropWhile_cons_of_pos hp] at h
      exact ih h
    · rw [List.dropWhile_cons_of_neg hp] at h
      injection h with h1 h2
      subst h1
      simpa using hp

theorem getLast_dropTrailingZeros (l : List Char) (c : Char)
    (h : (dropTrailingZeros l).getLast? = some c) : (c == '0') = false := by
  rw [dropTrailingZeros, List.getLast?_reverse] at h
  rcases hw : l.reverse.dropWhile (fun c => c == '0') with _ | ⟨a, as⟩
  · rw [hw] at h
    exact Option.noConfusion h
  · rw [hw] at h
    simp only [List.head?_cons, Option.some.injEq] at h
    have hf := head_dropWhile_false l.reverse a as hw
    rw [h] at hf
    exact hf

/-- The printed fraction never ends in a zero digit. -/
theorem fracChars_getLast_ne_zero (ns : Nat) :
    (fracChars ns).getLast? ≠ some '0' := by
  rw [fracChars]
  rcases hds : dropTrailingZeros (pad6c (ns / 1000)) with _ | ⟨d, ds⟩
  · simp
  · intro h
    simp only [List.isEmpty_cons, Bool.false_eq_true, if_false] at h
    rw [List.getLast?_cons_cons] at h
    have := getLast_dropTrailingZeros (pad6c (ns / 1000)) '0' (by rw [hds]; exact h)
    simp at this

/-- The printed fraction is at most a decimal point and six digits. -/
theorem pad6c_length (n : Nat) : (pad6c n).length = 6 := rfl

theorem fracChars_length_le (ns : Nat) : (fracChars ns).length ≤ 7 := by
  have h6 := dropTrailingZeros_length_le (pad6c (ns / 1000))
  rw [pad6c_length] at h6
  rw [fracChars]
  split
  · simp
  · simp only [List.length_cons]
    omega

/-- The fraction is omitted exactly when the time has no whole
microseconds. -/
theorem fracChars_eq_nil_iff (ns : Nat) (hns : ns < 1000000000) :
    fracChars ns = [] ↔ ns / 1000 = 0 := by
  constructor
  · intro h
    rw [fracChars] at h
    split at h
    · rename_i hc
      have hnil : dropTrailingZeros (pad6c (ns / 1000)) = [] := by
        simpa [List.isEmpty_iff] using hc
      have hval := dropTrailingZeros_val (pad6c (ns / 1000))
      rw [hnil, digitsVal_pad6c _ (by omega)] at hval
      simpa [digitsVal] using hval.symm
    · exact List.noConfusion h
  · intro h
    rw [fracChars, h]
    rfl

/-! ## Claim theorems: the wire object's keys and time strings -/

theorem mem_ite_nil_singleton {α : Type} (c : Prop) [Decidable c] (x p : α)
    (hp : p ∈ (if c then ([] : List α) else [x])) : p = x ∧ ¬c := by
  split at hp
  · simp at hp
  · exact ⟨by simpa using hp, by assumption⟩

/-- Every entry of the wire object is one of the seven fields, emitted
with its value of the matching kind, and the `omitempty` ones only with
a non-empty value. -/
theorem wireEntries_values (f : FormattedTask) (p : String × GoValue)
    (hp : p ∈ wireEntries f) :
    p = ("task", .str f.Task) ∨ p = ("id", .str f.Id) ∨
    (p = ("args", .arr (f.Args.map .str)) ∧ ¬f.Args.isEmpty = true) ∨
    (p = ("kwargs", .obj f.KWArgs) ∧ ¬f.KWArgs.isEmpty = true) ∨
    (p = ("retries", .num f.Retries) ∧ f.Retries ≠ 0) ∨
    (p = ("eta", .str f.ETA) ∧ f.ETA ≠ "") ∨
    (p = ("expires", .str f.Expires) ∧ f.Expires ≠ "") := by
  simp only [wireEntries, List.mem_append] at hp
  rcases hp with (((((hp | hp) | hp) | hp) | hp) | hp)
  · simp only [List.mem_cons, List.not_mem_nil, or_false] at hp
    rcases hp with hp | hp
    · exact Or.inl hp
    · exact Or.inr (Or.inl hp)
  · obtain ⟨hx, hc⟩ := mem_ite_nil_singleton _ _ _ hp
    exact Or.inr (Or.inr (Or.inl ⟨hx, hc⟩))
  · obtain ⟨hx, hc⟩ := mem_ite_nil_singleton _ _ _ hp
    exact Or.inr (Or.inr (Or.inr (Or.inl ⟨hx, hc⟩)))
  · obtain ⟨hx, hc⟩ := mem_ite_nil_singleton _ _ _ hp
    refine Or.inr (Or.inr (Or.inr (Or.inr (Or.inl ⟨hx, ?_⟩))))
    simpa using hc
  · obtain ⟨hx, hc⟩ := mem_ite_nil_singleton _ _ _ hp
    refine Or.inr (Or.inr (Or.inr (Or.inr (Or.inr (Or.inl ⟨hx, ?_⟩)))))
    simpa using hc
  · obtain ⟨hx, hc⟩ := mem_ite_nil_singleton _ _ _ hp
    refine Or.inr (Or.inr (Or.inr (Or.inr (Or.inr (Or.inr ⟨hx, ?_⟩)))))
    simpa using hc

/-- C9: the encoded object has keys `task` and `id` always, `args`,
`kwargs` and `retries` exactly when non-empty/non-zero, `eta` and
`expires` exactly when the time is set, in struct order and nothing
else; no entry is a JSON null, and the time keys carry non-empty
strings. -/
theorem marshal_key_set (t : Celery.Task)
    (hKW : marshalableEntries t.KWArgs = true) :
    ∃ entries, t.MarshalJSON = .ok (.valid (.obj entries)) ∧
      entries.map Prod.fst =
        ["task", "id"]
        ++ (if t.Args.isEmpty then [] else ["args"])
        ++ (if t.KWArgs.isEmpty then [] else ["kwargs"])
        ++ (if t.Retries == 0 then [] else ["retries"])
        ++ (if t.ETA.isZero then [] else ["eta"])
        ++ (if t.Expires.isZero then [] else ["expires"]) ∧
      (∀ p ∈ entries, p.2 ≠ GoValue.null) ∧
      (∀ p ∈ entries, p.1 = "eta" ∨ p.1 = "expires" →
        ∃ s, p.2 = GoValue.str s ∧ s ≠ "") := by
  have hne := goFormatTime_ne_empty t.ETA
  have hne2 := goFormatTime_ne_empty t.Expires
  refine ⟨wireEntries
    ⟨t.Task, t.Id, t.Args, t.KWArgs, t.Retries,
     (if !t.ETA.isZero then goFormatTime t.ETA else ""),
     (if !t.Expires.isZero then goFormatTime t.Expires else "")⟩, ?_, ?_, ?_, ?_⟩
  · simp [Task.MarshalJSON, marshalFormatted, hKW]
  · rcases hE : t.ETA.isZero <;> rcases hX : t.Expires.isZero <;>
      simp [wireEntries, hne, hne2, apply_ite (List.map Prod.fst)]
  · intro p hp
    rcases wireEntries_values _ p hp with
      rfl | rfl | ⟨rfl, -⟩ | ⟨rfl, -⟩ | ⟨rfl, -⟩ | ⟨rfl, -⟩ | ⟨rfl, -⟩ <;> simp
  · intro p hp hk
    rcases wireEntries_values _ p hp with
      rfl | rfl | ⟨rfl, -⟩ | ⟨rfl, -⟩ | ⟨rfl, -⟩ | ⟨rfl, he⟩ | ⟨rfl, hx⟩
    · simp at hk
    · simp at hk
    · simp at hk
    · simp at hk
    · simp at hk
    · exact ⟨_, rfl, he⟩
    · exact ⟨_, rfl, hx⟩

/-- C9 witness: a task with one arg, no kwargs, zero retries, `ETA` set
and `Expires` unset is encoded with exactly the keys
`task, id, args, eta`. -/
theorem marshal_key_set_check :
    ∃ entries,
      Task.MarshalJSON ⟨"add", "i", ["a"], [], 0, ⟨2023, 5, 1, 12, 0, 0, 0⟩, GoTime.zero⟩
        = .ok (.valid (.obj entries)) ∧
      entries.map Prod.fst = ["task", "id", "args", "eta"] := by
  obtain ⟨entries, h1, h2, h3, h4⟩ := marshal_key_set
    ⟨"add", "i", ["a"], [], 0, ⟨2023, 5, 1, 12, 0, 0, 0⟩, GoTime.zero⟩ rfl
  refine ⟨entries, h1, ?_⟩
  rw [h2]
  rfl

/-- C5 counterexample: a time with half a second of fraction is rendered
as `.5`, not with six fractional digits `.500000`: trailing zeros are
suppressed by the `9`-run layout. -/
theorem marshal_eta_suppresses_trailing_zeros :
    etaStringOf (Task.MarshalJSON
        ⟨"add", "i", [], [], 0, ⟨2023, 5, 1, 12, 0, 0, 500000000⟩, GoTime.zero⟩)
      = some "2023-05-01T12:00:00.5" ∧
    some "2023-05-01T12:00:00.5" ≠ some "2023-05-01T12:00:00.500000" :=
  ⟨rfl, by decide⟩

/-- C5 amended: for every Task whose `ETA` is set (a representable UTC
civil instant), the emitted `eta` string is `ETA` rendered in the
canonical date-time pattern with a fraction of at most six digits whose
trailing zeros are removed (the fraction is omitted entirely when the
microsecond part is zero), and for microsecond-truncated instants the
rendering is faithful: parsing it back yields `ETA` again.  The same
rule holds, independently, for `Expires` — neither side's statement
assumes anything about the other time. -/
theorem marshal_time_rendering (t : Celery.Task)
    (hKW : marshalableEntries t.KWArgs = true) :
    (t.ETA.isZero = false → t.ETA.valid = true →
      etaStringOf t.MarshalJSON = some (goFormatTime t.ETA) ∧
      (fracChars t.ETA.nanosecond).getLast? ≠ some '0' ∧
      (fracChars t.ETA.nanosecond).length ≤ 7 ∧
      (fracChars t.ETA.nanosecond = [] ↔ t.ETA.nanosecond / 1000 = 0) ∧
      (t.ETA.nanosecond % 1000 = 0 →
        goParseTime (goFormatTime t.ETA) = .ok t.ETA)) ∧
    (t.Expires.isZero = false → t.Expires.valid = true →
      expiresStringOf t.MarshalJSON = some (goFormatTime t.Expires) ∧
      (fracChars t.Expires.nanosecond).getLast? ≠ some '0' ∧
      (fracChars t.Expires.nanosecond).length ≤ 7 ∧
      (fracChars t.Expires.nanosecond = [] ↔ t.Expires.nanosecond / 1000 = 0) ∧
      (t.Expires.nanosecond % 1000 = 0 →
        goParseTime (goFormatTime t.Expires) = .ok t.Expires)) := by
  have hne := goFormatTime_ne_empty t.ETA
  have hne2 := goFormatTime_ne_empty t.Expires
  constructor
  · intro hEset hEv
    have hns : t.ETA.nanosecond < 1000000000 :=
      (valid_bounds t.ETA hEv).2.2.2.2.2.2
    refine ⟨?_, fracChars_getLast_ne_zero _, fracChars_length_le _,
      fracChars_eq_nil_iff _ hns,
      fun hEus => goParseTime_goFormatTime _ hEv hEus⟩
    simp [Task.MarshalJSON, marshalFormatted, hKW, hEset, etaStringOf,
      wireEntries, lookupKey, hne, hne2, List.filter_append,
      apply_ite (List.filter (fun kv : String × GoValue => kv.1 == "eta"))]
  · intro hXset hXv
    have hns : t.Expires.nanosecond < 1000000000 :=
      (valid_bounds t.Expires hXv).2.2.2.2.2.2
    refine ⟨?_, fracChars_getLast_ne_zero _, fracChars_length_le _,
      fracChars_eq_nil_iff _ hns,
      fun hXus => goParseTime_goFormatTime _ hXv hXus⟩
    simp [Task.MarshalJSON, marshalFormatted, hKW, hXset, expiresStringOf,
      wireEntries, lookupKey, hne, hne2, List.filter_append,
      apply_ite (List.filter (fun kv : String × GoValue => kv.1 == "expires"))]

/-- C5 witness: on a task with `ETA` set and `Expires` unset, the spec's
own example still holds — `ETA = 2023-05-01T12:00:00.123456Z` is emitted
exactly as `2023-05-01T12:00:00.123456` and parses back. -/
theorem marshal_time_rendering_check :
    etaStringOf (Task.MarshalJSON
        ⟨"add", "i", [], [], 0, ⟨2023, 5, 1, 12, 0, 0, 123456000⟩, GoTime.zero⟩)
      = some "2023-05-01T12:00:00.123456" ∧
    goParseTime "2023-05-01T12:00:00.123456"
      = .ok ⟨2023, 5, 1, 12, 0, 0, 123456000⟩ := by
  have h := marshal_time_rendering
    ⟨"add", "i", [], [], 0, ⟨2023, 5, 1, 12, 0, 0, 123456000⟩, GoTime.zero⟩ rfl
  obtain ⟨h1, -, -, -, h5⟩ := h.1 (by decide) (by decide)
  have he : goFormatTime (⟨2023, 5, 1, 12, 0, 0, 123456000⟩ : GoTime)
      = "2023-05-01T12:00:00.123456" := rfl
  have h6 := h5 (by decide)
  rw [he] at h1 h6
  exact ⟨h1, h6⟩

end Celery
